/-
  Verification of the Torrin resumable chunked-upload engine.

  Shallow embedding of:
  - the pure chunk arithmetic of `@torrin/core` (calculateTotalChunks,
    normalizeChunkSize, getMissingChunks, getExpectedChunkSize),
  - the reference in-memory `UploadStore` (memory-store.ts),
  - the `TorrinService` orchestration (service.ts): handleChunk, getStatus,
    completeUpload, cleanupExpiredUploads,
  - the local-filesystem driver's chunk file naming and lexicographic sort
    used by finalizeUpload (storage-local),
  - the client-side retry loop `uploadChunkWithRetry` (client/upload.ts).

  Numbers are modelled as `Nat` (all quantities in the source are
  non-negative integers in their reachable range), except chunk indices at
  the service boundary, which the HTTP layer can hand in as negative
  numbers and which the service explicitly checks for `index < 0`; those
  are `Int`.  Timestamps (`Date`) are milliseconds as `Nat`.
-/
import Mathlib

namespace Torrin

/-! ### Constants (`packages/core/src/constants.ts`) -/

def DEFAULT_CHUNK_SIZE : Nat := 1024 * 1024
def MIN_CHUNK_SIZE : Nat := 256 * 1024
def MAX_CHUNK_SIZE : Nat := 100 * 1024 * 1024
def DEFAULT_RETRY_ATTEMPTS : Nat := 3
def DEFAULT_RETRY_DELAY : Nat := 1000

/-! ### Pure chunk arithmetic (`packages/core/src/utils.ts`) -/

/-- `calculateTotalChunks`: `Math.ceil(fileSize / chunkSize)` on integers. -/
def calculateTotalChunks (fileSize chunkSize : Nat) : Nat :=
  (fileSize + chunkSize - 1) / chunkSize

/-- `normalizeChunkSize`: clamp the desired size to
`[MIN_CHUNK_SIZE, MAX_CHUNK_SIZE]`, then cap to `fileSize`.
`desired ?? DEFAULT_CHUNK_SIZE` is the `Option.getD`. -/
def normalizeChunkSize (desired : Option Nat) (fileSize : Nat) : Nat :=
  let size := desired.getD DEFAULT_CHUNK_SIZE
  let size := max MIN_CHUNK_SIZE (min MAX_CHUNK_SIZE size)
  if size > fileSize then fileSize else size

/-- `getMissingChunks`: walk `i = 0 .. totalChunks-1` and keep the indices
not in the received set. -/
def getMissingChunks (totalChunks : Nat) (receivedChunks : List Nat) : List Nat :=
  (List.range totalChunks).filter (fun i => !(receivedChunks.contains i))

/-- `getExpectedChunkSize`: the source throws on an out-of-range index
(modelled as `none`); the last chunk gets the remainder (or a full chunk
when evenly divisible), every other chunk gets `chunkSize`.  The index is
`Int` because the source checks `chunkIndex < 0`. -/
def getExpectedChunkSize (chunkIndex : Int) (totalChunks fileSize chunkSize : Nat) :
    Option Nat :=
  if chunkIndex < 0 ∨ (totalChunks : Int) ≤ chunkIndex then none
  else if chunkIndex = (totalChunks : Int) - 1 then
    some (if fileSize % chunkSize = 0 then chunkSize else fileSize % chunkSize)
  else some chunkSize

/-! ### Data model (`packages/core` types, `memory-store.ts` state) -/

/-- `UploadStatus` union. -/
inductive UploadStatus where
  | pending
  | in_progress
  | completed
  | failed
  | canceled
deriving DecidableEq, Repr

/-- `TorrinUploadSession` (the fields the claims touch; `metadata` and
`mimeType` are opaque payload and are omitted).  Timestamps are
milliseconds. -/
structure Session where
  uploadId : String
  fileName : Option String
  fileSize : Nat
  chunkSize : Nat
  totalChunks : Nat
  status : UploadStatus
  createdAt : Nat
  updatedAt : Nat
  expiresAt : Option Nat
deriving DecidableEq, Repr

/-- One entry of the in-memory store: the session plus the received-chunk
set (`Set<number>` of chunk indices).  A JS `Set` is a collection of
distinct values in insertion order; it is modelled as the list of its
values in insertion order (duplicate-free by construction: `add` is a
no-op on a present member). -/
structure StoredSession where
  session : Session
  receivedChunks : List Nat
deriving DecidableEq

/-- The in-memory store: a `Map<string, StoredSession>` keyed by uploadId,
modelled as an association list in insertion order. -/
abbrev Store := List (String × StoredSession)

/-- `sessions.get(uploadId)` on the map. -/
def Store.find (store : Store) (uploadId : String) : Option StoredSession :=
  (List.find? (fun e => e.1 = uploadId) store).map Prod.snd

/-! ### Reference in-memory store operations (`memory-store.ts`) -/

/-- `createSession`: builds the session record (status `pending`, received
set empty) and inserts it.  `expiresAt` is `now + ttlMs` when `ttlMs` is
truthy (`0` and `undefined` are both falsy in `ttlMs ? … : undefined`).
The fresh `uploadId` generated by `generateUploadId()` is a parameter of
the model (it depends on the clock and `Math.random`). -/
def createSession (store : Store) (now : Nat) (uploadId : String)
    (fileName : Option String) (fileSize chunkSize : Nat) (ttlMs : Option Nat) :
    Session × Store :=
  let session : Session :=
    { uploadId := uploadId
      fileName := fileName
      fileSize := fileSize
      chunkSize := chunkSize
      totalChunks := calculateTotalChunks fileSize chunkSize
      status := .pending
      createdAt := now
      updatedAt := now
      expiresAt := match ttlMs with
        | some t => if t = 0 then none else some (now + t)
        | none => none }
  (session, store ++ [(uploadId, { session := session, receivedChunks := [] })])

/-- `getSession`: a stored session whose `expiresAt` is strictly in the
past is reported as absent. -/
def getSession (store : Store) (now : Nat) (uploadId : String) : Option Session :=
  match store.find uploadId with
  | none => none
  | some stored =>
    match stored.session.expiresAt with
    | some e => if e < now then none else some stored.session
    | none => some stored.session

/-- Replace the entry at `uploadId` (the map's `set` on an existing key). -/
def Store.setEntry (store : Store) (uploadId : String) (entry : StoredSession) : Store :=
  store.map (fun e => if e.1 = uploadId then (e.1, entry) else e)

/-- `updateSession` restricted to the patches the service issues (a status
patch); refreshes `updatedAt`.  `none` models the `UPLOAD_NOT_FOUND`
throw. -/
def updateSessionStatus (store : Store) (now : Nat) (uploadId : String)
    (status : UploadStatus) : Option Store :=
  match store.find uploadId with
  | none => none
  | some stored =>
    some (store.setEntry uploadId
      { stored with session := { stored.session with status := status, updatedAt := now } })

/-- `Set.add`: append the value unless already present. -/
def setAdd (l : List Nat) (x : Nat) : List Nat :=
  if l.contains x then l else l ++ [x]

/-- `markChunkReceived`: idempotent set insert; refreshes `updatedAt`.
`none` models the `UPLOAD_NOT_FOUND` throw. -/
def markChunkReceived (store : Store) (now : Nat) (uploadId : String)
    (chunkIndex : Nat) : Option Store :=
  match store.find uploadId with
  | none => none
  | some stored =>
    some (store.setEntry uploadId
      { session := { stored.session with updatedAt := now }
        receivedChunks := setAdd stored.receivedChunks chunkIndex })

/-- `listReceivedChunks`: `Array.from(set).sort((a, b) => a - b)` — the
received set in ascending numeric order.  `none` models the throw. -/
def listReceivedChunks (store : Store) (uploadId : String) : Option (List Nat) :=
  (store.find uploadId).map (fun stored => stored.receivedChunks.insertionSort (· ≤ ·))

/-- `deleteSession`: remove the entry (no-op when absent). -/
def deleteSession (store : Store) (uploadId : String) : Store :=
  store.filter (fun e => !(e.1 = uploadId : Bool))

/-- `listExpiredSessions`: every stored session whose `expiresAt` is
defined and strictly in the past — with no filter on `status`. -/
def listExpiredSessions (store : Store) (now : Nat) : List Session :=
  (store.map (fun e => e.2.session)).filter
    (fun s => match s.expiresAt with
      | some e => decide (e < now)
      | none => false)

/-! ### Typed errors (`packages/core/src/errors.ts`)

Only the error codes the service paths below can raise, with the `details`
payloads the claims inspect. -/

inductive TorrinErr where
  | uploadNotFound
  | uploadAlreadyCompleted
  | uploadCanceled
  | chunkOutOfRange
  | chunkSizeMismatch (expected actual : Nat)
  | missingChunks (missingChunks : List Nat)
  | invalidRequest
  | internalError
deriving DecidableEq, Repr

instance {ε α : Type} [DecidableEq ε] [DecidableEq α] : DecidableEq (Except ε α) :=
  fun a b =>
    match a, b with
    | .ok x, .ok y =>
      if h : x = y then .isTrue (by rw [h]) else .isFalse (by simp [h])
    | .error x, .error y =>
      if h : x = y then .isTrue (by rw [h]) else .isFalse (by simp [h])
    | .ok _, .error _ => .isFalse (by simp)
    | .error _, .ok _ => .isFalse (by simp)

/-! ### `TorrinService` (`packages/server/src/service.ts`)

The storage driver is abstracted: the model records whether the driver
method was invoked (`driverWrote` / `driverFinalized` / the abort list)
and assumes the invocation succeeds; the claims under verification are
conditions on the service/store flow up to a successful driver call. -/

/-- `HandleChunkInput` (the `stream` carries bytes, irrelevant here).  The
index arrives from the HTTP layer and can be negative. -/
structure HandleChunkInput where
  uploadId : String
  index : Int
  size : Nat
deriving DecidableEq, Repr

structure HandleChunkResult where
  result : Except TorrinErr Unit
  driverWrote : Bool
  store : Store
deriving DecidableEq

/-- `handleChunk`: session lookup, status validation, index validation,
size validation, driver write, `markChunkReceived`, and the
`pending → in_progress` patch, in source order. -/
def handleChunk (store : Store) (now : Nat) (input : HandleChunkInput) :
    HandleChunkResult :=
  match getSession store now input.uploadId with
  | none => ⟨.error .uploadNotFound, false, store⟩
  | some session =>
    -- validateSessionForChunk
    if session.status = .completed then ⟨.error .uploadAlreadyCompleted, false, store⟩
    else if session.status = .canceled then ⟨.error .uploadCanceled, false, store⟩
    -- validateChunkIndex
    else if input.index < 0 ∨ (session.totalChunks : Int) ≤ input.index then
      ⟨.error .chunkOutOfRange, false, store⟩
    else
      match getExpectedChunkSize input.index session.totalChunks
          session.fileSize session.chunkSize with
      | none => ⟨.error .internalError, false, store⟩ -- unreachable: index was validated
      | some expectedSize =>
        if input.size ≠ expectedSize then
          ⟨.error (.chunkSizeMismatch expectedSize input.size), false, store⟩
        else
          -- storage.writeChunk succeeds, then the store is updated
          match markChunkReceived store now input.uploadId input.index.toNat with
          | none => ⟨.error .uploadNotFound, true, store⟩ -- unreachable: session exists
          | some store1 =>
            if session.status = .pending then
              match updateSessionStatus store1 now input.uploadId .in_progress with
              | none => ⟨.error .uploadNotFound, true, store1⟩ -- unreachable
              | some store2 => ⟨.ok (), true, store2⟩
            else ⟨.ok (), true, store1⟩

/-- `TorrinUploadStatus` as returned by `getStatus`. -/
structure StatusResult where
  uploadId : String
  status : UploadStatus
  fileName : Option String
  fileSize : Nat
  chunkSize : Nat
  totalChunks : Nat
  receivedChunks : List Nat
  missingChunks : List Nat
deriving DecidableEq, Repr

/-- `getStatus`: pure read of the session plus the received list and its
complement. -/
def getStatus (store : Store) (now : Nat) (uploadId : String) :
    Except TorrinErr StatusResult :=
  match getSession store now uploadId with
  | none => .error .uploadNotFound
  | some session =>
    match listReceivedChunks store uploadId with
    | none => .error .uploadNotFound -- unreachable: getSession found the entry
    | some receivedChunks =>
      .ok { uploadId := session.uploadId
            status := session.status
            fileName := session.fileName
            fileSize := session.fileSize
            chunkSize := session.chunkSize
            totalChunks := session.totalChunks
            receivedChunks := receivedChunks
            missingChunks := getMissingChunks session.totalChunks receivedChunks }

structure CompleteOutcome where
  result : Except TorrinErr Unit
  driverFinalized : Bool
  store : Store
deriving DecidableEq

/-- `completeUpload`: status validation, gap check (`MISSING_CHUNKS` with
the missing list in `details`), then `driver.finalizeUpload` and the patch
to `completed`. -/
def completeUpload (store : Store) (now : Nat) (uploadId : String) :
    CompleteOutcome :=
  match getSession store now uploadId with
  | none => ⟨.error .uploadNotFound, false, store⟩
  | some session =>
    if session.status = .completed then ⟨.error .uploadAlreadyCompleted, false, store⟩
    else if session.status = .canceled then ⟨.error .uploadCanceled, false, store⟩
    else
      match listReceivedChunks store uploadId with
      | none => ⟨.error .uploadNotFound, false, store⟩ -- unreachable
      | some receivedChunks =>
        let missingChunks := getMissingChunks session.totalChunks receivedChunks
        if missingChunks.length > 0 then
          ⟨.error (.missingChunks missingChunks), false, store⟩
        else
          match updateSessionStatus store now uploadId .completed with
          | none => ⟨.error .uploadNotFound, true, store⟩ -- unreachable
          | some store1 => ⟨.ok (), true, store1⟩

structure CleanupResult where
  cleaned : Nat
  /-- uploadIds for which `driver.abortUpload` was invoked. -/
  aborted : List String
  store : Store
deriving DecidableEq

/-- The body of the `cleanupExpiredUploads` loop over the expired list:
driver-abort non-completed sessions, then delete every session record.
The model's driver and store never throw, so the `errors` array stays
empty and each iteration counts as cleaned. -/
def cleanupLoop (store : Store) (expired : List Session) : CleanupResult :=
  match expired with
  | [] => ⟨0, [], store⟩
  | session :: rest =>
    let abortedHere : List String :=
      if session.status ≠ .completed then [session.uploadId] else []
    let r := cleanupLoop (deleteSession store session.uploadId) rest
    ⟨r.cleaned + 1, abortedHere ++ r.aborted, r.store⟩

/-- `cleanupExpiredUploads` with the reference store's `listExpiredSessions`. -/
def cleanupExpiredUploads (store : Store) (now : Nat) : CleanupResult :=
  cleanupLoop store (listExpiredSessions store now)

/-- `TorrinSessionInitInput` (the fields that reach the model). -/
structure InitInput where
  fileName : Option String
  fileSize : Nat
  desiredChunkSize : Option Nat
deriving DecidableEq, Repr

/-- `initUpload`: validate `fileSize > 0`, normalize the chunk size
(`input.desiredChunkSize ?? defaultChunkSize` is what reaches
`normalizeChunkSize`), create the session, init the driver (assumed to
succeed), return the session. -/
def initUpload (store : Store) (now : Nat) (uploadId : String)
    (defaultChunkSize uploadTtlMs : Nat) (input : InitInput) :
    Except TorrinErr (Session × Store) :=
  if input.fileSize = 0 then .error .invalidRequest
  else
    let chunkSize :=
      normalizeChunkSize (some (input.desiredChunkSize.getD defaultChunkSize))
        input.fileSize
    .ok (createSession store now uploadId input.fileName input.fileSize chunkSize
      (some uploadTtlMs))

/-! ### Local filesystem driver: chunk file names
(`packages/storage-local/src/index.ts`)

`getChunkPath` names a staged chunk
`chunk_${chunkIndex.toString().padStart(6, "0")}`, and `finalizeUpload`
sorts the directory listing with `chunks.sort()`, i.e. lexicographic
comparison of UTF-16 code units.  File names are modelled as `List Char`
and code units as `Char.toNat` (all characters involved are ASCII). -/

/-- Decimal digits of `n`, most significant first, as computed by
`Number.prototype.toString()` (no leading zeros; `0` renders as `[0]`).
The first argument is recursion fuel, instantiated with `n` itself, which
bounds the number of divisions by 10. -/
def natDigitsGo : Nat → Nat → List Nat
  | 0, n => [n]
  | fuel + 1, n => if n < 10 then [n] else natDigitsGo fuel (n / 10) ++ [n % 10]

def natDigits (n : Nat) : List Nat := natDigitsGo n n

/-- The character of a decimal digit (`'0'` has code 48). -/
def digitChar (d : Nat) : Char := Char.ofNat (48 + d)

/-- `padStart(6, "0")` on a character list. -/
def padStart6 (s : List Char) : List Char :=
  List.replicate (6 - s.length) '0' ++ s

/-- The staged chunk file name `chunk_<6-digit zero-padded index>`. -/
def chunkFileName (chunkIndex : Nat) : List Char :=
  "chunk_".data ++ padStart6 ((natDigits chunkIndex).map digitChar)

/-- JavaScript default-sort string comparison: lexicographic on code
units; `true` iff the first string sorts strictly before the second. -/
def strLt : List Char → List Char → Bool
  | _, [] => false
  | [], _ :: _ => true
  | a :: as, b :: bs =>
    if a.toNat < b.toNat then true
    else if b.toNat < a.toNat then false
    else strLt as bs

/-- `strLt` as a relation, for `List.Sorted`. -/
def StrLtP (a b : List Char) : Prop := strLt a b = true

instance : DecidableRel StrLtP := fun _ _ => inferInstanceAs (Decidable (_ = true))

/-- Lexicographic comparison on digit-value lists (proof helper mirroring
`strLt` through `digitChar`). -/
def natListLt : List Nat → List Nat → Bool
  | _, [] => false
  | [], _ :: _ => true
  | a :: as, b :: bs =>
    if a < b then true
    else if b < a then false
    else natListLt as bs

/-- The numeric value of a most-significant-first digit list (proof
helper). -/
def listVal (ds : List Nat) : Nat := ds.foldl (fun a d => 10 * a + d) 0

/-! ### Client retry loop (`packages/client/src/upload.ts`)

`uploadChunkWithRetry(chunkIndex, attempt = 1)`: try the chunk; on error
(with cancellation not set — the claim under verification conditions on
that, so the cancellation flag is not modelled) sleep
`retryDelay * 2 ** (attempt - 1)` ms and recurse with `attempt + 1` while
`attempt < retryAttempts`, otherwise rethrow.  The model abstracts one
attempt's outcome as `fails attempt` and returns the list of sleeps
performed, the number of the last attempt made, and whether that attempt
succeeded. -/

structure RetryOutcome where
  delays : List Nat
  lastAttempt : Nat
  success : Bool
deriving DecidableEq, Repr

def uploadChunkWithRetry (fails : Nat → Bool) (retryAttempts retryDelay : Nat)
    (attempt : Nat) : RetryOutcome :=
  if !(fails attempt) then ⟨[], attempt, true⟩
  else if attempt < retryAttempts then
    let r := uploadChunkWithRetry fails retryAttempts retryDelay (attempt + 1)
    ⟨retryDelay * 2 ^ (attempt - 1) :: r.delays, r.lastAttempt, r.success⟩
  else ⟨[], attempt, false⟩
termination_by retryAttempts - attempt
decreasing_by omega

/-- The store invariant maintained by the service: every recorded received
chunk index lies in `[0, totalChunks)` of its session.  `handleChunk` only
marks indices it has validated, so every store reachable through the
service satisfies this. -/
def StoreWF (store : Store) : Prop :=
  ∀ entry ∈ store, entry.2.receivedChunks.Nodup
    ∧ ∀ i ∈ entry.2.receivedChunks, i < entry.2.session.totalChunks

instance : DecidablePred StoreWF := fun store =>
  inferInstanceAs (Decidable (∀ entry ∈ store, entry.2.receivedChunks.Nodup
    ∧ ∀ i ∈ entry.2.receivedChunks, i < entry.2.session.totalChunks))

/-! ### Concrete instances for counterexamples and witnesses

The 3-chunk scenario of the spec's end-to-end examples:
`fileSize = 2_500_000`, `chunkSize = 1_000_000`, expected sizes
`[1_000_000, 1_000_000, 500_000]`. -/

/-- A minimal concrete session used by the concrete counterexamples and
witnesses. -/
def sampleSession (status : UploadStatus) (expiresAt : Option Nat) : Session :=
  { uploadId := "u_a"
    fileName := none
    fileSize := 2500000
    chunkSize := 1000000
    totalChunks := 3
    status := status
    createdAt := 0
    updatedAt := 0
    expiresAt := expiresAt }

/-- A one-session store around `sampleSession` with a given received set. -/
def sampleStore (status : UploadStatus) (received : List Nat) : Store :=
  [("u_a", { session := sampleSession status none, receivedChunks := received })]

/-! ## Theorems -/

/-! ### C1: chunk-size arithmetic -/

lemma totalChunks_eq_pred_div (fileSize chunkSize : Nat)
    (hfs : 0 < fileSize) (hcs : 0 < chunkSize) :
    calculateTotalChunks fileSize chunkSize = (fileSize - 1) / chunkSize + 1 := by
  unfold calculateTotalChunks
  have h : fileSize + chunkSize - 1 = (fileSize - 1) + chunkSize := by omega
  rw [h, Nat.add_div_right _ hcs]

lemma totalChunks_pos (fileSize chunkSize : Nat)
    (hfs : 0 < fileSize) (hcs : 0 < chunkSize) :
    0 < calculateTotalChunks fileSize chunkSize := by
  rw [totalChunks_eq_pred_div fileSize chunkSize hfs hcs]
  exact Nat.succ_pos _

lemma totalChunks_mul_bounds (fileSize chunkSize : Nat)
    (hfs : 0 < fileSize) (hcs : 0 < chunkSize) :
    chunkSize * (calculateTotalChunks fileSize chunkSize - 1) < fileSize ∧
      fileSize ≤ calculateTotalChunks fileSize chunkSize * chunkSize := by
  rw [totalChunks_eq_pred_div fileSize chunkSize hfs hcs]
  simp only [Nat.add_sub_cancel]
  constructor
  · have h := Nat.mul_div_le (fileSize - 1) chunkSize
    omega
  · have h := Nat.div_add_mod (fileSize - 1) chunkSize
    have h2 := Nat.mod_lt (fileSize - 1) hcs
    have h3 : ((fileSize - 1) / chunkSize + 1) * chunkSize
        = chunkSize * ((fileSize - 1) / chunkSize) + chunkSize := by ring
    omega

/-- The last chunk index `totalChunks - 1` together with `(fs-1)/cs` many
full chunks accounts for exactly `fileSize` bytes. -/
lemma pred_div_mul_add_last (fileSize chunkSize : Nat)
    (hfs : 0 < fileSize) (hcs : 0 < chunkSize) :
    (fileSize - 1) / chunkSize * chunkSize
        + (if fileSize % chunkSize = 0 then chunkSize else fileSize % chunkSize)
      = fileSize := by
  by_cases h : fileSize % chunkSize = 0
  · obtain ⟨k, hk⟩ := Nat.dvd_of_mod_eq_zero h
    have hk1 : 0 < k := by
      rcases Nat.eq_zero_or_pos k with h0 | h0
      · subst h0; simp at hk; omega
      · exact h0
    obtain ⟨m, rfl⟩ : ∃ m, k = m + 1 := ⟨k - 1, by omega⟩
    have hmul : chunkSize * (m + 1) = chunkSize * m + chunkSize := by ring
    have hfs1 : fileSize - 1 = (chunkSize - 1) + chunkSize * m := by omega
    have hdiv : (fileSize - 1) / chunkSize = m := by
      rw [hfs1, Nat.add_mul_div_left _ _ hcs, Nat.div_eq_of_lt (by omega)]
      omega
    rw [hdiv, if_pos h]
    have hmul2 : m * chunkSize = chunkSize * m := by ring
    omega
  · have hdm := Nat.div_add_mod fileSize chunkSize
    have hmlt := Nat.mod_lt fileSize hcs
    have hfs1 : fileSize - 1 = (fileSize % chunkSize - 1) + chunkSize * (fileSize / chunkSize) := by
      omega
    have hdiv : (fileSize - 1) / chunkSize = fileSize / chunkSize := by
      rw [hfs1, Nat.add_mul_div_left _ _ hcs, Nat.div_eq_of_lt (by omega)]
      omega
    rw [hdiv, if_neg h]
    have hmul : fileSize / chunkSize * chunkSize = chunkSize * (fileSize / chunkSize) := by ring
    omega

/-- C1.  For every `fileSize > 0` and `chunkSize ∈ [MIN_CHUNK_SIZE,
min(MAX_CHUNK_SIZE, fileSize)]`: `calculateTotalChunks` is
`⌈fileSize / chunkSize⌉`; the expected chunk sizes over `[0, totalChunks)`
sum to `fileSize`; the last one lies in `(0, chunkSize]`; every other one
equals `chunkSize`. -/
theorem chunk_size_arithmetic (fileSize chunkSize : Nat)
    (hfs : 0 < fileSize) (hmin : MIN_CHUNK_SIZE ≤ chunkSize)
    (hmax : chunkSize ≤ min MAX_CHUNK_SIZE fileSize) :
    calculateTotalChunks fileSize chunkSize = ⌈(fileSize : ℚ) / (chunkSize : ℚ)⌉₊
    ∧ (∑ i ∈ Finset.range (calculateTotalChunks fileSize chunkSize),
        (getExpectedChunkSize (i : Int) (calculateTotalChunks fileSize chunkSize)
          fileSize chunkSize).getD 0) = fileSize
    ∧ (∃ last, getExpectedChunkSize ((calculateTotalChunks fileSize chunkSize : Int) - 1)
          (calculateTotalChunks fileSize chunkSize) fileSize chunkSize = some last
        ∧ 0 < last ∧ last ≤ chunkSize)
    ∧ (∀ i : Nat, i < calculateTotalChunks fileSize chunkSize - 1 →
        getExpectedChunkSize (i : Int) (calculateTotalChunks fileSize chunkSize)
          fileSize chunkSize = some chunkSize) := by
  have hcs : 0 < chunkSize := by
    have : 0 < MIN_CHUNK_SIZE := by norm_num [MIN_CHUNK_SIZE]
    omega
  have hpred := totalChunks_eq_pred_div fileSize chunkSize hfs hcs
  have htp := totalChunks_pos fileSize chunkSize hfs hcs
  have hb := totalChunks_mul_bounds fileSize chunkSize hfs hcs
  generalize ht : calculateTotalChunks fileSize chunkSize = t
  rw [ht] at hpred htp hb
  have hothers : ∀ i : Nat, i < t - 1 →
      getExpectedChunkSize (i : Int) t fileSize chunkSize = some chunkSize := by
    intro i hi
    unfold getExpectedChunkSize
    rw [if_neg (by omega), if_neg (by omega)]
  have hlast : getExpectedChunkSize ((t : Int) - 1) t fileSize chunkSize
      = some (if fileSize % chunkSize = 0 then chunkSize else fileSize % chunkSize) := by
    unfold getExpectedChunkSize
    rw [if_neg (by omega), if_pos rfl]
  refine ⟨?_, ?_, ?_, hothers⟩
  · symm
    rw [Nat.ceil_eq_iff (by omega)]
    have hq : (0 : ℚ) < (chunkSize : ℚ) := by exact_mod_cast hcs
    constructor
    · rw [lt_div_iff₀ hq]
      exact_mod_cast by
        calc ((t - 1) * chunkSize : Nat) = chunkSize * (t - 1) := by ring
          _ < fileSize := hb.1
    · rw [div_le_iff₀ hq]
      exact_mod_cast hb.2
  · obtain ⟨t', rfl⟩ : ∃ t', t = t' + 1 := ⟨t - 1, by omega⟩
    rw [Finset.sum_range_succ]
    have hstep : ∀ i ∈ Finset.range t',
        (getExpectedChunkSize (i : Int) (t' + 1) fileSize chunkSize).getD 0 = chunkSize := by
      intro i hi
      rw [hothers i (by simpa using hi)]
      rfl
    rw [Finset.sum_congr rfl hstep, Finset.sum_const, Finset.card_range, smul_eq_mul]
    have hlast' : getExpectedChunkSize (t' : Int) (t' + 1) fileSize chunkSize
        = some (if fileSize % chunkSize = 0 then chunkSize else fileSize % chunkSize) := by
      have hcast : ((t' + 1 : Nat) : Int) - 1 = (t' : Int) := by omega
      rw [← hcast]
      exact hlast
    rw [hlast']
    have ht' : t' = (fileSize - 1) / chunkSize := by omega
    rw [ht']
    simpa using pred_div_mul_add_last fileSize chunkSize hfs hcs
  · refine ⟨if fileSize % chunkSize = 0 then chunkSize else fileSize % chunkSize, hlast, ?_, ?_⟩
    · split
      · exact hcs
      · omega
    · split
      · exact le_refl _
      · exact le_of_lt (Nat.mod_lt _ hcs)

/-- Witness for C1 at `fileSize = 600000`, `chunkSize = MIN_CHUNK_SIZE`. -/
theorem chunk_size_arithmetic_witness :
    (0 < 600000 ∧ MIN_CHUNK_SIZE ≤ 262144 ∧ 262144 ≤ min MAX_CHUNK_SIZE 600000)
    ∧ (calculateTotalChunks 600000 262144 = ⌈(600000 : ℚ) / (262144 : ℚ)⌉₊
      ∧ (∑ i ∈ Finset.range (calculateTotalChunks 600000 262144),
          (getExpectedChunkSize (i : Int) (calculateTotalChunks 600000 262144)
            600000 262144).getD 0) = 600000
      ∧ (∃ last, getExpectedChunkSize ((calculateTotalChunks 600000 262144 : Int) - 1)
            (calculateTotalChunks 600000 262144) 600000 262144 = some last
          ∧ 0 < last ∧ last ≤ 262144)
      ∧ (∀ i : Nat, i < calculateTotalChunks 600000 262144 - 1 →
          getExpectedChunkSize (i : Int) (calculateTotalChunks 600000 262144)
            600000 262144 = some 262144)) :=
  ⟨⟨by norm_num, by norm_num [MIN_CHUNK_SIZE], by norm_num [MAX_CHUNK_SIZE]⟩,
    chunk_size_arithmetic 600000 262144 (by norm_num)
      (by norm_num [MIN_CHUNK_SIZE]) (by norm_num [MAX_CHUNK_SIZE])⟩

/-! ### C6: chunk-size normalization bounds -/

lemma normalizeChunkSize_bounds (desired : Option Nat) (fileSize : Nat)
    (hfs : 0 < fileSize) :
    normalizeChunkSize desired fileSize ≤ MAX_CHUNK_SIZE
    ∧ normalizeChunkSize desired fileSize ≤ fileSize
    ∧ min MIN_CHUNK_SIZE fileSize ≤ normalizeChunkSize desired fileSize := by
  unfold normalizeChunkSize
  simp only [MIN_CHUNK_SIZE, MAX_CHUNK_SIZE]
  split <;> omega

/-- C6, amended.  For every init input with `fileSize > 0`, the created
session's `chunkSize` is at most `MAX_CHUNK_SIZE` and at most `fileSize`,
and at least `min MIN_CHUNK_SIZE fileSize`; in particular the claimed
lower bound `MIN_CHUNK_SIZE ≤ chunkSize` holds whenever
`fileSize ≥ MIN_CHUNK_SIZE`, but not for smaller files (the cap to
`fileSize` wins). -/
theorem init_chunkSize_bounds (store : Store) (now : Nat) (uploadId : String)
    (defaultChunkSize uploadTtlMs : Nat) (input : InitInput)
    (s : Session) (store' : Store)
    (h : initUpload store now uploadId defaultChunkSize uploadTtlMs input
      = .ok (s, store')) :
    s.chunkSize ≤ MAX_CHUNK_SIZE ∧ s.chunkSize ≤ input.fileSize
    ∧ min MIN_CHUNK_SIZE input.fileSize ≤ s.chunkSize
    ∧ (MIN_CHUNK_SIZE ≤ input.fileSize → MIN_CHUNK_SIZE ≤ s.chunkSize) := by
  have hfs : 0 < input.fileSize := by
    by_contra hc
    unfold initUpload at h
    rw [if_pos (by omega)] at h
    exact Except.noConfusion h
  unfold initUpload at h
  rw [if_neg (by omega)] at h
  simp only [createSession, Except.ok.injEq, Prod.mk.injEq] at h
  obtain ⟨hs, -⟩ := h
  have hcs : s.chunkSize
      = normalizeChunkSize (some (input.desiredChunkSize.getD defaultChunkSize))
          input.fileSize := by
    rw [← hs]
  have hb := normalizeChunkSize_bounds
    (some (input.desiredChunkSize.getD defaultChunkSize)) input.fileSize hfs
  rw [← hcs] at hb
  exact ⟨hb.1, hb.2.1, hb.2.2, fun hmf => by omega⟩

/-- Counterexample to C6 as stated: a 1-byte file yields a session whose
`chunkSize` is `1`, far below the claimed lower bound of 256 KiB. -/
theorem init_chunkSize_bounds_counterexample :
    (initUpload [] 0 "u_a" DEFAULT_CHUNK_SIZE 1000
        { fileName := none, fileSize := 1, desiredChunkSize := none }).map
      (fun p => p.1.chunkSize) = .ok 1
    ∧ ¬ MIN_CHUNK_SIZE ≤ 1 := by
  constructor
  · rfl
  · decide

/-- Witness for C6 (amended) at a concrete successful init. -/
theorem init_chunkSize_bounds_witness :
    (initUpload [] 0 "u_a" DEFAULT_CHUNK_SIZE 1000
        { fileName := none, fileSize := 2500000, desiredChunkSize := some 1000000 }
      = .ok (sampleSession .pending (some 1000), [("u_a",
        { session := sampleSession .pending (some 1000), receivedChunks := [] })]))
    ∧ ((sampleSession .pending (some 1000)).chunkSize ≤ MAX_CHUNK_SIZE
      ∧ (sampleSession .pending (some 1000)).chunkSize ≤ 2500000
      ∧ min MIN_CHUNK_SIZE 2500000 ≤ (sampleSession .pending (some 1000)).chunkSize
      ∧ (MIN_CHUNK_SIZE ≤ 2500000 →
          MIN_CHUNK_SIZE ≤ (sampleSession .pending (some 1000)).chunkSize)) := by
  have h : initUpload [] 0 "u_a" DEFAULT_CHUNK_SIZE 1000
      { fileName := none, fileSize := 2500000, desiredChunkSize := some 1000000 }
      = .ok (sampleSession .pending (some 1000), [("u_a",
        { session := sampleSession .pending (some 1000), receivedChunks := [] })]) := by
    decide
  exact ⟨h, init_chunkSize_bounds [] 0 "u_a" DEFAULT_CHUNK_SIZE 1000
    { fileName := none, fileSize := 2500000, desiredChunkSize := some 1000000 }
    (sampleSession .pending (some 1000)) _ h⟩

/-! ### C8: `getSession` expiry behaviour -/

/-- C8, amended.  The reference store's `getSession` hides a session only
when `expiresAt < now` STRICTLY: at the exact instant `expiresAt = now`
the session is still returned.  An unknown `uploadId` yields `null`. -/
theorem getSession_expiry (store : Store) (now : Nat) (uploadId : String) :
    (store.find uploadId = none → getSession store now uploadId = none)
    ∧ ∀ stored, store.find uploadId = some stored →
        ((∀ e, stored.session.expiresAt = some e → e < now →
            getSession store now uploadId = none)
        ∧ (∀ e, stored.session.expiresAt = some e → now ≤ e →
            getSession store now uploadId = some stored.session)
        ∧ (stored.session.expiresAt = none →
            getSession store now uploadId = some stored.session)) := by
  constructor
  · intro h
    unfold getSession
    rw [h]
  · intro stored hfind
    refine ⟨?_, ?_, ?_⟩
    · intro e he hlt
      simp [getSession, hfind, he, hlt]
    · intro e he hge
      simp [getSession, hfind, he, Nat.not_lt.mpr hge]
    · intro hnone
      simp [getSession, hfind, hnone]

/-- Counterexample to C8 as stated: with `expiresAt = now = 5` the session
is returned, not treated as absent. -/
theorem getSession_expiry_counterexample :
    getSession [("u_a", { session := sampleSession .pending (some 5), receivedChunks := [] })]
        5 "u_a" = some (sampleSession .pending (some 5))
    ∧ getSession [("u_a", { session := sampleSession .pending (some 5), receivedChunks := [] })]
        5 "u_a" ≠ none := by
  constructor
  · rfl
  · decide

/-- Witness for C8 (amended): strict expiry at `now = 6`, survival at
`now = 5`, and `null` for an unknown id, at concrete inputs. -/
theorem getSession_expiry_witness :
    Store.find [("u_a", { session := sampleSession .pending (some 5), receivedChunks := [] })]
        "u_a"
      = some { session := sampleSession .pending (some 5), receivedChunks := [] }
    ∧ getSession [("u_a", { session := sampleSession .pending (some 5), receivedChunks := [] })]
        6 "u_a" = none
    ∧ getSession [("u_a", { session := sampleSession .pending (some 5), receivedChunks := [] })]
        5 "u_a" = some (sampleSession .pending (some 5))
    ∧ getSession ([] : Store) 5 "u_b" = none := by
  have hfind : Store.find
      [("u_a", { session := sampleSession .pending (some 5), receivedChunks := [] })] "u_a"
      = some { session := sampleSession .pending (some 5), receivedChunks := [] } := by decide
  refine ⟨hfind, ?_, ?_, ?_⟩
  · exact ((getSession_expiry _ 6 "u_a").2 _ hfind).1 5 rfl (by decide)
  · exact ((getSession_expiry _ 5 "u_a").2 _ hfind).2.1 5 rfl (by decide)
  · exact (getSession_expiry ([] : Store) 5 "u_b").1 rfl

/-! ### C5: cleanup of expired sessions -/

lemma store_find_eq_none_iff (st : Store) (target : String) :
    Store.find st target = none ↔ ∀ e ∈ st, e.1 ≠ target := by
  unfold Store.find
  rw [Option.map_eq_none', List.find?_eq_none]
  simp

lemma find_deleteSession_other (st : Store) (uploadId target : String)
    (h : Store.find st target = none) :
    Store.find (deleteSession st uploadId) target = none := by
  rw [store_find_eq_none_iff] at h ⊢
  intro e he
  exact h e (List.mem_of_mem_filter he)

lemma find_deleteSession_self (st : Store) (uploadId : String) :
    Store.find (deleteSession st uploadId) uploadId = none := by
  rw [store_find_eq_none_iff]
  intro e he
  simpa using List.of_mem_filter he

lemma find_cleanupLoop_none (l : List Session) (st : Store) (target : String)
    (h : Store.find st target = none) :
    Store.find (cleanupLoop st l).store target = none := by
  induction l generalizing st with
  | nil => exact h
  | cons s rest ih =>
    simp only [cleanupLoop]
    exact ih _ (find_deleteSession_other _ _ _ h)

lemma cleanupLoop_deletes (l : List Session) (st : Store) :
    ∀ s ∈ l, Store.find (cleanupLoop st l).store s.uploadId = none := by
  induction l generalizing st with
  | nil => intro s hs; exact absurd hs (List.not_mem_nil s)
  | cons s0 rest ih =>
    intro s hs
    rcases List.mem_cons.mp hs with rfl | hs
    · simp only [cleanupLoop]
      exact find_cleanupLoop_none rest _ _ (find_deleteSession_self st s.uploadId)
    · simp only [cleanupLoop]
      exact ih _ s hs

lemma cleanupLoop_aborted (l : List Session) (st : Store) :
    ∀ uid ∈ (cleanupLoop st l).aborted,
      ∃ s ∈ l, s.uploadId = uid ∧ s.status ≠ .completed := by
  induction l generalizing st with
  | nil => intro uid h; exact absurd h (List.not_mem_nil uid)
  | cons s0 rest ih =>
    intro uid h
    simp only [cleanupLoop, List.mem_append] at h
    rcases h with h | h
    · by_cases hc : s0.status ≠ .completed
      · rw [if_pos hc] at h
        rcases List.mem_singleton.mp h with rfl
        exact ⟨s0, List.mem_cons_self _ _, rfl, hc⟩
      · rw [if_neg hc] at h
        exact absurd h (List.not_mem_nil uid)
    · obtain ⟨s, hs, h1, h2⟩ := ih _ uid h
      exact ⟨s, List.mem_cons_of_mem _ hs, h1, h2⟩

/-- C5, amended.  The reference store's `listExpiredSessions` does NOT
filter by status: it returns every stored session (completed ones
included) whose `expiresAt` is strictly in the past.  A cleanup sweep
therefore deletes the session record of an expired completed upload; what
it does skip for completed sessions is the driver abort. -/
theorem cleanup_expired_sessions (store : Store) (now : Nat) :
    (∀ s, s ∈ listExpiredSessions store now ↔
      (∃ entry ∈ store, entry.2.session = s) ∧ ∃ e, s.expiresAt = some e ∧ e < now)
    ∧ (∀ uid ∈ (cleanupExpiredUploads store now).aborted,
        ∃ s ∈ listExpiredSessions store now, s.uploadId = uid ∧ s.status ≠ .completed)
    ∧ (∀ s ∈ listExpiredSessions store now,
        Store.find (cleanupExpiredUploads store now).store s.uploadId = none) := by
  refine ⟨?_, ?_, ?_⟩
  · intro s
    unfold listExpiredSessions
    rw [List.mem_filter, List.mem_map]
    constructor
    · rintro ⟨⟨entry, hm, rfl⟩, hcond⟩
      refine ⟨⟨entry, hm, rfl⟩, ?_⟩
      rcases he : entry.2.session.expiresAt with - | e
      · rw [he] at hcond; exact absurd hcond (by simp)
      · rw [he] at hcond; exact ⟨e, rfl, by simpa using hcond⟩
    · rintro ⟨⟨entry, hm, rfl⟩, e, he, hlt⟩
      exact ⟨⟨entry, hm, rfl⟩, by rw [he]; simpa using hlt⟩
  · exact cleanupLoop_aborted _ _
  · exact cleanupLoop_deletes _ _

/-- Counterexample to C5 as stated: an expired COMPLETED session is
returned by `listExpiredSessions` and its record is deleted by the sweep. -/
theorem cleanup_expired_sessions_counterexample :
    listExpiredSessions
        [("u_a", { session := sampleSession .completed (some 0), receivedChunks := [] })] 1
      = [sampleSession .completed (some 0)]
    ∧ (sampleSession .completed (some 0)).status = .completed
    ∧ Store.find (cleanupExpiredUploads
        [("u_a", { session := sampleSession .completed (some 0), receivedChunks := [] })] 1).store
        "u_a" = none := by
  refine ⟨rfl, rfl, rfl⟩

/-- Witness for C5 (amended) on a two-entry store: the expired pending
session is driver-aborted and deleted; the expired completed session is
deleted but never aborted. -/
theorem cleanup_expired_sessions_witness :
    (∀ s, s ∈ listExpiredSessions
        [("u_a", { session := sampleSession .completed (some 0), receivedChunks := [] })] 1 ↔
      (∃ entry ∈ [("u_a",
          ({ session := sampleSession .completed (some 0), receivedChunks := [] } :
            StoredSession))], entry.2.session = s)
        ∧ ∃ e, s.expiresAt = some e ∧ e < 1)
    ∧ (∀ uid ∈ (cleanupExpiredUploads
          [("u_a", { session := sampleSession .completed (some 0), receivedChunks := [] })]
          1).aborted,
        ∃ s ∈ listExpiredSessions
          [("u_a", { session := sampleSession .completed (some 0), receivedChunks := [] })] 1,
          s.uploadId = uid ∧ s.status ≠ .completed)
    ∧ (∀ s ∈ listExpiredSessions
          [("u_a", { session := sampleSession .completed (some 0), receivedChunks := [] })] 1,
        Store.find (cleanupExpiredUploads
          [("u_a", { session := sampleSession .completed (some 0), receivedChunks := [] })]
          1).store s.uploadId = none) :=
  cleanup_expired_sessions
    [("u_a", { session := sampleSession .completed (some 0), receivedChunks := [] })] 1

/-! ### C2 / C10: `handleChunk` validation order and error purity -/

lemma getSession_find (store : Store) (now : Nat) (uploadId : String) (s : Session)
    (h : getSession store now uploadId = some s) :
    ∃ stored, Store.find store uploadId = some stored ∧ stored.session = s := by
  unfold getSession at h
  split at h
  · exact absurd h (by simp)
  next stored hf =>
    refine ⟨stored, hf, ?_⟩
    split at h
    next e he =>
      split at h
      · exact absurd h (by simp)
      · exact Option.some_injective _ h
    next he => exact Option.some_injective _ h

lemma find_setEntry_self (st : Store) (uploadId : String) (entry stored : StoredSession)
    (h : Store.find st uploadId = some stored) :
    Store.find (st.setEntry uploadId entry) uploadId = some entry := by
  induction st with
  | nil => exact absurd h (by simp [Store.find])
  | cons e st ih =>
    by_cases he : e.1 = uploadId
    · simp [Store.find, Store.setEntry, List.find?, he]
    · have h' : Store.find st uploadId = some stored := by
        simpa [Store.find, List.find?, he] using h
      have hrec := ih h'
      simp only [Store.setEntry, List.map, if_neg he] at hrec ⊢
      simpa [Store.find, List.find?, he] using hrec

lemma markChunkReceived_eq (store : Store) (now : Nat) (uploadId : String)
    (chunkIndex : Nat) (stored : StoredSession)
    (h : Store.find store uploadId = some stored) :
    markChunkReceived store now uploadId chunkIndex
      = some (store.setEntry uploadId
          { session := { stored.session with updatedAt := now }
            receivedChunks := setAdd stored.receivedChunks chunkIndex }) := by
  unfold markChunkReceived
  rw [h]

lemma updateSessionStatus_eq (store : Store) (now : Nat) (uploadId : String)
    (status : UploadStatus) (stored : StoredSession)
    (h : Store.find store uploadId = some stored) :
    updateSessionStatus store now uploadId status
      = some (store.setEntry uploadId
          { stored with session := { stored.session with status := status, updatedAt := now } }) := by
  unfold updateSessionStatus
  rw [h]

/-- C2.  `handleChunk` applies its checks in source order with exactly the
claimed typed errors, and on the happy path writes via the driver and then
marks the chunk received (patching `pending → in_progress`). -/
theorem handleChunk_validation_order (store : Store) (now : Nat)
    (input : HandleChunkInput) :
    (getSession store now input.uploadId = none →
      handleChunk store now input = ⟨.error .uploadNotFound, false, store⟩)
    ∧ ∀ s, getSession store now input.uploadId = some s →
      ((s.status = .completed →
        handleChunk store now input = ⟨.error .uploadAlreadyCompleted, false, store⟩)
      ∧ (s.status ≠ .completed → s.status = .canceled →
        handleChunk store now input = ⟨.error .uploadCanceled, false, store⟩)
      ∧ (s.status ≠ .completed → s.status ≠ .canceled →
          (input.index < 0 ∨ (s.totalChunks : Int) ≤ input.index) →
        handleChunk store now input = ⟨.error .chunkOutOfRange, false, store⟩)
      ∧ (s.status ≠ .completed → s.status ≠ .canceled →
          0 ≤ input.index → input.index < (s.totalChunks : Int) →
          ∀ expected,
            getExpectedChunkSize input.index s.totalChunks s.fileSize s.chunkSize
              = some expected →
            ((input.size ≠ expected →
              handleChunk store now input
                = ⟨.error (.chunkSizeMismatch expected input.size), false, store⟩)
            ∧ (input.size = expected →
              ∃ st1, markChunkReceived store now input.uploadId input.index.toNat = some st1
                ∧ (handleChunk store now input).result = .ok ()
                ∧ (handleChunk store now input).driverWrote = true
                ∧ ((s.status = .pending →
                      ∃ st2, updateSessionStatus st1 now input.uploadId .in_progress = some st2
                        ∧ (handleChunk store now input).store = st2)
                  ∧ (s.status ≠ .pending →
                      (handleChunk store now input).store = st1)))))) := by
  constructor
  · intro h
    unfold handleChunk
    rw [h]
  · intro s hgs
    refine ⟨?_, ?_, ?_, ?_⟩
    · intro hc
      unfold handleChunk
      simp only [hgs]
      rw [if_pos hc]
    · intro hnc hc
      unfold handleChunk
      simp only [hgs]
      rw [if_neg hnc, if_pos hc]
    · intro hnc hncan hrange
      unfold handleChunk
      simp only [hgs]
      rw [if_neg hnc, if_neg hncan, if_pos hrange]
    · intro hnc hncan hge hlt expected hexp
      obtain ⟨stored, hfind, hsession⟩ := getSession_find store now input.uploadId s hgs
      have hmark := markChunkReceived_eq store now input.uploadId input.index.toNat
        stored hfind
      have hnorange : ¬(input.index < 0 ∨ (s.totalChunks : Int) ≤ input.index) := by
        omega
      constructor
      · intro hne
        unfold handleChunk
        simp only [hgs]
        rw [if_neg hnc, if_neg hncan, if_neg hnorange]
        simp only [hexp]
        rw [if_pos hne]
      · intro heq
        have hfind1 : Store.find (store.setEntry input.uploadId
            { session := { stored.session with updatedAt := now }
              receivedChunks := setAdd stored.receivedChunks input.index.toNat })
            input.uploadId = some
              { session := { stored.session with updatedAt := now }
                receivedChunks := setAdd stored.receivedChunks input.index.toNat } :=
          find_setEntry_self store input.uploadId _ stored hfind
        have hupd := updateSessionStatus_eq _ now input.uploadId .in_progress _ hfind1
        generalize hst1eq : store.setEntry input.uploadId
            { session := { stored.session with updatedAt := now }
              receivedChunks := setAdd stored.receivedChunks input.index.toNat }
          = st1 at hmark hupd
        refine ⟨st1, hmark, ?_⟩
        by_cases hp : s.status = .pending
        · obtain ⟨st2, hupd2⟩ : ∃ st2,
              updateSessionStatus st1 now input.uploadId .in_progress = some st2 :=
            ⟨_, hupd⟩
          have hh : handleChunk store now input = ⟨.ok (), true, st2⟩ := by
            unfold handleChunk
            simp only [hgs]
            rw [if_neg hnc, if_neg hncan, if_neg hnorange]
            simp only [hexp]
            rw [if_neg (by omega : ¬input.size ≠ expected)]
            simp only [hmark]
            rw [if_pos hp]
            simp only [hupd2]
          rw [hh]
          exact ⟨rfl, rfl, fun _ => ⟨st2, hupd2, rfl⟩, fun hnp => absurd hp hnp⟩
        · have hh : handleChunk store now input = ⟨.ok (), true, st1⟩ := by
            unfold handleChunk
            simp only [hgs]
            rw [if_neg hnc, if_neg hncan, if_neg hnorange]
            simp only [hexp]
            rw [if_neg (by omega : ¬input.size ≠ expected)]
            simp only [hmark]
            rw [if_neg hp]
          rw [hh]
          exact ⟨rfl, rfl, fun hp' => absurd hp' hp, fun _ => rfl⟩

/-- Witness for C2: the spec's scenario 3 — a PUT of index 2 with
1_000_000 bytes against the 3-chunk sample session fails
`CHUNK_SIZE_MISMATCH` with `details = {expected: 500000, actual: 1000000}`. -/
theorem handleChunk_validation_order_witness :
    getSession (sampleStore .in_progress []) 0 "u_a" = some (sampleSession .in_progress none)
    ∧ handleChunk (sampleStore .in_progress []) 0 { uploadId := "u_a", index := 2, size := 1000000 }
      = ⟨.error (.chunkSizeMismatch 500000 1000000), false, sampleStore .in_progress []⟩ := by
  have hgs : getSession (sampleStore .in_progress []) 0 "u_a"
      = some (sampleSession .in_progress none) := by decide
  refine ⟨hgs, ?_⟩
  have h := (handleChunk_validation_order (sampleStore .in_progress []) 0
    { uploadId := "u_a", index := 2, size := 1000000 }).2 _ hgs
  exact (h.2.2.2 (by decide) (by decide) (by decide) (by decide) 500000 (by decide)).1
    (by decide)

lemma markChunkReceived_some_inv (store : Store) (now : Nat) (uploadId : String)
    (chunkIndex : Nat) (st1 : Store)
    (h : markChunkReceived store now uploadId chunkIndex = some st1) :
    ∃ stored, Store.find store uploadId = some stored ∧
      st1 = store.setEntry uploadId
        { session := { stored.session with updatedAt := now }
          receivedChunks := setAdd stored.receivedChunks chunkIndex } := by
  unfold markChunkReceived at h
  split at h
  · exact absurd h (by simp)
  next stored hf => exact ⟨stored, hf, (Option.some_injective _ h).symm⟩

/-- C10.  Whenever `handleChunk` fails with any typed error, the store is
returned unchanged: no `markChunkReceived`, no status patch, no session
mutation. -/
theorem handleChunk_error_leaves_store (store : Store) (now : Nat)
    (input : HandleChunkInput) (e : TorrinErr)
    (h : (handleChunk store now input).result = .error e) :
    (handleChunk store now input).store = store := by
  rcases hgs : getSession store now input.uploadId with - | s
  · unfold handleChunk
    simp only [hgs]
  · unfold handleChunk at h ⊢
    simp only [hgs] at h ⊢
    by_cases h1 : s.status = .completed
    · rw [if_pos h1]
    rw [if_neg h1] at h ⊢
    by_cases h2 : s.status = .canceled
    · rw [if_pos h2]
    rw [if_neg h2] at h ⊢
    by_cases h3 : input.index < 0 ∨ (s.totalChunks : Int) ≤ input.index
    · rw [if_pos h3]
    rw [if_neg h3] at h ⊢
    rcases hexp : getExpectedChunkSize input.index s.totalChunks s.fileSize s.chunkSize
      with - | expected
    · simp only [hexp]
    simp only [hexp] at h ⊢
    by_cases h4 : input.size ≠ expected
    · rw [if_pos h4]
    rw [if_neg h4] at h ⊢
    rcases hm : markChunkReceived store now input.uploadId input.index.toNat with - | st1
    · simp only [hm]
    simp only [hm] at h ⊢
    obtain ⟨stored, hfind, rfl⟩ :=
      markChunkReceived_some_inv store now input.uploadId input.index.toNat st1 hm
    have hfind1 := find_setEntry_self store input.uploadId
      { session := { stored.session with updatedAt := now }
        receivedChunks := setAdd stored.receivedChunks input.index.toNat } stored hfind
    have hupd := updateSessionStatus_eq _ now input.uploadId .in_progress _ hfind1
    by_cases h5 : s.status = .pending
    · rw [if_pos h5] at h
      simp only [hupd] at h
      exact absurd h (by simp)
    · rw [if_neg h5] at h
      exact absurd h (by simp)

/-- Witness for C10: the failing PUT of scenario 3 leaves the sample store
untouched. -/
theorem handleChunk_error_leaves_store_witness :
    (handleChunk (sampleStore .in_progress []) 0
        { uploadId := "u_a", index := 2, size := 999 }).result
      = .error (.chunkSizeMismatch 500000 999)
    ∧ (handleChunk (sampleStore .in_progress []) 0
        { uploadId := "u_a", index := 2, size := 999 }).store
      = sampleStore .in_progress [] := by
  have h : (handleChunk (sampleStore .in_progress []) 0
      { uploadId := "u_a", index := 2, size := 999 }).result
      = .error (.chunkSizeMismatch 500000 999) := by decide
  exact ⟨h, handleChunk_error_leaves_store (sampleStore .in_progress []) 0
    { uploadId := "u_a", index := 2, size := 999 } (.chunkSizeMismatch 500000 999) h⟩

/-! ### C3 / C4: missing-chunk computation, `completeUpload`, `getStatus` -/

lemma mem_getMissingChunks (totalChunks : Nat) (received : List Nat) (i : Nat) :
    i ∈ getMissingChunks totalChunks received ↔ i < totalChunks ∧ i ∉ received := by
  simp [getMissingChunks, List.mem_filter]

lemma getMissingChunks_sorted (totalChunks : Nat) (received : List Nat) :
    (getMissingChunks totalChunks received).Sorted (· < ·) :=
  List.Pairwise.sublist (List.filter_sublist _) (List.pairwise_lt_range totalChunks)

/-- C3.  On a live session with a gap, `completeUpload` fails
`MISSING_CHUNKS` whose details are exactly the ascending list of indices
of `[0, totalChunks)` not received, without touching the driver or the
store (so the session status is unchanged). -/
theorem completeUpload_missing_chunks (store : Store) (now : Nat) (uploadId : String)
    (s : Session) (received : List Nat)
    (hgs : getSession store now uploadId = some s)
    (hnc : s.status ≠ .completed) (hncan : s.status ≠ .canceled)
    (hrl : listReceivedChunks store uploadId = some received)
    (hgap : ∃ i, i < s.totalChunks ∧ i ∉ received) :
    completeUpload store now uploadId
      = ⟨.error (.missingChunks (getMissingChunks s.totalChunks received)), false, store⟩
    ∧ (getMissingChunks s.totalChunks received).Sorted (· < ·)
    ∧ (∀ i, i ∈ getMissingChunks s.totalChunks received ↔ i < s.totalChunks ∧ i ∉ received) := by
  have hmem := fun i => mem_getMissingChunks s.totalChunks received i
  have hne : getMissingChunks s.totalChunks received ≠ [] := by
    obtain ⟨i, hi, hni⟩ := hgap
    intro hnil
    exact absurd ((hmem i).mpr ⟨hi, hni⟩) (by rw [hnil]; exact List.not_mem_nil i)
  refine ⟨?_, getMissingChunks_sorted _ _, hmem⟩
  unfold completeUpload
  simp only [hgs]
  rw [if_neg hnc, if_neg hncan]
  simp only [hrl]
  rw [if_pos (by simpa [List.length_pos] using hne)]

/-- Witness for C3: the spec's scenario 4 — only chunks 0 and 2 received
out of 3; complete fails with `details.missingChunks = [1]`. -/
theorem completeUpload_missing_chunks_witness :
    getMissingChunks 3 [0, 2] = [1]
    ∧ completeUpload (sampleStore .in_progress [0, 2]) 0 "u_a"
      = ⟨.error (.missingChunks (getMissingChunks 3 [0, 2])), false,
          sampleStore .in_progress [0, 2]⟩
    ∧ (getMissingChunks 3 [0, 2]).Sorted (· < ·)
    ∧ (∀ i, i ∈ getMissingChunks 3 [0, 2] ↔ i < 3 ∧ i ∉ [0, 2]) := by
  have h := completeUpload_missing_chunks (sampleStore .in_progress [0, 2]) 0 "u_a"
    (sampleSession .in_progress none) [0, 2] (by decide) (by decide) (by decide)
    (by decide) ⟨1, by decide, by decide⟩
  exact ⟨by decide, h.1, h.2.1, h.2.2⟩

/-- C4.  For every store satisfying the service invariant, `getStatus`
reports `receivedChunks` and `missingChunks` sorted ascending, disjoint,
jointly covering exactly `[0, totalChunks)`, with
`|receivedChunks| ≤ totalChunks`. -/
theorem getStatus_invariants (store : Store) (now : Nat) (uploadId : String)
    (r : StatusResult) (hwf : StoreWF store)
    (h : getStatus store now uploadId = .ok r) :
    r.receivedChunks.Sorted (· < ·)
    ∧ r.missingChunks.Sorted (· < ·)
    ∧ (∀ i, ¬(i ∈ r.receivedChunks ∧ i ∈ r.missingChunks))
    ∧ (∀ i, (i ∈ r.receivedChunks ∨ i ∈ r.missingChunks) ↔ i < r.totalChunks)
    ∧ r.receivedChunks.length ≤ r.totalChunks := by
  unfold getStatus at h
  split at h
  · exact absurd h (by simp)
  next s hgs =>
    split at h
    · exact absurd h (by simp)
    next received hrl =>
      obtain ⟨stored, hfind, hsession⟩ := getSession_find store now uploadId s hgs
      have hrl' : received = stored.receivedChunks.insertionSort (· ≤ ·) := by
        unfold listReceivedChunks at hrl
        rw [hfind] at hrl
        exact (Option.some_injective _ hrl).symm
      have hentry : ∃ e ∈ store, e.2 = stored := by
        unfold Store.find at hfind
        rcases hf2 : List.find? (fun e => e.1 = uploadId) store with - | e
        · rw [hf2] at hfind; exact absurd hfind (by simp)
        · rw [hf2] at hfind
          exact ⟨e, List.mem_of_find?_eq_some hf2, Option.some_injective _ hfind⟩
      obtain ⟨e, he, he2⟩ := hentry
      obtain ⟨hnodup, hbound'⟩ := hwf e he
      rw [he2] at hnodup hbound'
      rw [hsession] at hbound'
      have hbound : ∀ i ∈ stored.receivedChunks, i < s.totalChunks := hbound'
      have hr : r = { uploadId := s.uploadId, status := s.status, fileName := s.fileName
                      fileSize := s.fileSize, chunkSize := s.chunkSize
                      totalChunks := s.totalChunks, receivedChunks := received
                      missingChunks := getMissingChunks s.totalChunks received } :=
        (Option.some_injective _ (by simpa using h)).symm
      subst hr hrl'
      have hmemsort : ∀ i : Nat,
          i ∈ stored.receivedChunks.insertionSort (· ≤ ·) ↔ i ∈ stored.receivedChunks :=
        fun i => List.mem_insertionSort (· ≤ ·)
      refine ⟨?_, getMissingChunks_sorted _ _, ?_, ?_, ?_⟩
      · exact (List.sorted_insertionSort (· ≤ ·) _).lt_of_le
          ((List.perm_insertionSort (· ≤ ·) _).nodup_iff.mpr hnodup)
      · intro i ⟨h1, h2⟩
        exact ((mem_getMissingChunks _ _ i).mp h2).2 h1
      · intro i
        simp only
        constructor
        · rintro (h1 | h1)
          · exact hbound i ((hmemsort i).mp h1)
          · exact ((mem_getMissingChunks _ _ i).mp h1).1
        · intro hi
          by_cases hin : i ∈ stored.receivedChunks.insertionSort (· ≤ ·)
          · exact Or.inl hin
          · exact Or.inr ((mem_getMissingChunks _ _ i).mpr ⟨hi, hin⟩)
      · simp only
        rw [List.length_insertionSort]
        have hsub : stored.receivedChunks.toFinset ⊆ Finset.range s.totalChunks := by
          intro i hi
          rw [Finset.mem_range]
          exact hbound i (List.mem_toFinset.mp hi)
        have hcard := Finset.card_le_card hsub
        rw [List.toFinset_card_of_nodup hnodup, Finset.card_range] at hcard
        exact hcard

/-- Witness for C4 on the sample store with chunks `{0, 2}` of 3 received. -/
theorem getStatus_invariants_witness :
    StoreWF (sampleStore .in_progress [0, 2])
    ∧ ∃ r, getStatus (sampleStore .in_progress [0, 2]) 0 "u_a" = .ok r
    ∧ (r.receivedChunks.Sorted (· < ·)
      ∧ r.missingChunks.Sorted (· < ·)
      ∧ (∀ i, ¬(i ∈ r.receivedChunks ∧ i ∈ r.missingChunks))
      ∧ (∀ i, (i ∈ r.receivedChunks ∨ i ∈ r.missingChunks) ↔ i < r.totalChunks)
      ∧ r.receivedChunks.length ≤ r.totalChunks) := by
  have hwf : StoreWF (sampleStore .in_progress [0, 2]) := by decide
  have h : getStatus (sampleStore .in_progress [0, 2]) 0 "u_a"
      = .ok { uploadId := "u_a", status := .in_progress, fileName := none
              fileSize := 2500000, chunkSize := 1000000, totalChunks := 3
              receivedChunks := [0, 2], missingChunks := [1] } := by decide
  exact ⟨hwf, _, h, getStatus_invariants _ 0 "u_a" _ hwf h⟩

/-! ### C9: client retry with exponential backoff -/

lemma uploadChunkWithRetry_spec (fails : Nat → Bool) (ra rd : Nat) :
    ∀ n a, ra - a = n → 1 ≤ a →
      a ≤ (uploadChunkWithRetry fails ra rd a).lastAttempt
      ∧ (uploadChunkWithRetry fails ra rd a).lastAttempt ≤ max a ra
      ∧ (∀ k, a ≤ k → k < (uploadChunkWithRetry fails ra rd a).lastAttempt →
          fails k = true)
      ∧ (uploadChunkWithRetry fails ra rd a).delays
        = (List.range' a ((uploadChunkWithRetry fails ra rd a).lastAttempt - a)).map
            (fun k => rd * 2 ^ (k - 1))
      ∧ ((uploadChunkWithRetry fails ra rd a).success = true →
          fails (uploadChunkWithRetry fails ra rd a).lastAttempt = false)
      ∧ ((uploadChunkWithRetry fails ra rd a).success = false →
          fails (uploadChunkWithRetry fails ra rd a).lastAttempt = true
          ∧ (uploadChunkWithRetry fails ra rd a).lastAttempt = max a ra) := by
  intro n
  induction n with
  | zero =>
    intro a hn ha
    have hra : ra ≤ a := by omega
    rcases hf : fails a with - | -
    · rw [uploadChunkWithRetry, hf]
      simp
      exact ⟨fun k h1 h2 => by omega, hf⟩
    · rw [uploadChunkWithRetry, hf]
      rw [if_neg (by omega : ¬a < ra)]
      simp only [Bool.not_true, Bool.false_eq_true, if_false]
      refine ⟨le_refl _, by omega, fun k h1 h2 => by omega, by simp, by simp, ?_⟩
      intro
      exact ⟨hf, by omega⟩
  | succ n ih =>
    intro a hn ha
    have hlt : a < ra := by omega
    rcases hf : fails a with - | -
    · rw [uploadChunkWithRetry, hf]
      simp
      exact ⟨fun k h1 h2 => by omega, hf⟩
    · have hrec := ih (a + 1) (by omega) (by omega)
      rw [uploadChunkWithRetry, hf]
      rw [if_pos hlt]
      simp only [Bool.not_true, Bool.false_eq_true, if_false]
      obtain ⟨h1, h2, h3, h4, h5, h6⟩ := hrec
      have hmax : max (a + 1) ra = ra := by omega
      rw [hmax] at h2 h6
      refine ⟨by omega, by omega, ?_, ?_, h5, ?_⟩
      · intro k hk1 hk2
        rcases Nat.eq_or_lt_of_le hk1 with rfl | hk1'
        · exact hf
        · exact h3 k (by omega) hk2
      · have hspan : (uploadChunkWithRetry fails ra rd (a + 1)).lastAttempt - a
            = ((uploadChunkWithRetry fails ra rd (a + 1)).lastAttempt - (a + 1)) + 1 := by
          omega
        rw [hspan, List.range'_succ, List.map_cons, h4]
      · intro hsf
        have := h6 hsf
        exact ⟨this.1, by omega⟩

/-- C9.  For `retryAttempts ≥ 1`, a chunk upload makes at most
`retryAttempts` attempts (the first included); after failed attempt `k`
(`k < retryAttempts`, cancellation not set) it sleeps exactly
`retryDelay * 2^(k-1)` ms before attempt `k+1`; when every attempt fails,
the surfaced error is that of attempt number `retryAttempts`. -/
theorem client_retry_policy (fails : Nat → Bool) (retryAttempts retryDelay : Nat)
    (hra : 1 ≤ retryAttempts) :
    (uploadChunkWithRetry fails retryAttempts retryDelay 1).lastAttempt ≤ retryAttempts
    ∧ (∀ k, 1 ≤ k → k < (uploadChunkWithRetry fails retryAttempts retryDelay 1).lastAttempt →
        fails k = true)
    ∧ (uploadChunkWithRetry fails retryAttempts retryDelay 1).delays
      = (List.range' 1
          ((uploadChunkWithRetry fails retryAttempts retryDelay 1).lastAttempt - 1)).map
          (fun k => retryDelay * 2 ^ (k - 1))
    ∧ ((uploadChunkWithRetry fails retryAttempts retryDelay 1).success = false →
        fails (uploadChunkWithRetry fails retryAttempts retryDelay 1).lastAttempt = true
        ∧ (uploadChunkWithRetry fails retryAttempts retryDelay 1).lastAttempt
          = retryAttempts)
    ∧ ((uploadChunkWithRetry fails retryAttempts retryDelay 1).success = true →
        fails (uploadChunkWithRetry fails retryAttempts retryDelay 1).lastAttempt = false) := by
  have h := uploadChunkWithRetry_spec fails retryAttempts retryDelay
    (retryAttempts - 1) 1 rfl (le_refl _)
  obtain ⟨h1, h2, h3, h4, h5, h6⟩ := h
  have hmax : max 1 retryAttempts = retryAttempts := by omega
  rw [hmax] at h2 h6
  exact ⟨h2, h3, h4, h6, h5⟩

/-- Witness for C9: three attempts, all failing (default
`retryAttempts = 3`, `retryDelay = 1000`): sleeps `[1000, 2000]`, final
attempt number 3, error surfaced. -/
theorem client_retry_policy_witness :
    uploadChunkWithRetry (fun _ => true) 3 1000 1
      = { delays := [1000, 2000], lastAttempt := 3, success := false }
    ∧ ((uploadChunkWithRetry (fun _ => true) 3 1000 1).lastAttempt ≤ 3
      ∧ (∀ k, 1 ≤ k → k < (uploadChunkWithRetry (fun _ => true) 3 1000 1).lastAttempt →
          (fun _ : Nat => true) k = true)
      ∧ (uploadChunkWithRetry (fun _ => true) 3 1000 1).delays
        = (List.range' 1 ((uploadChunkWithRetry (fun _ => true) 3 1000 1).lastAttempt - 1)).map
            (fun k => 1000 * 2 ^ (k - 1))
      ∧ ((uploadChunkWithRetry (fun _ => true) 3 1000 1).success = false →
          (fun _ : Nat => true) (uploadChunkWithRetry (fun _ => true) 3 1000 1).lastAttempt
            = true
          ∧ (uploadChunkWithRetry (fun _ => true) 3 1000 1).lastAttempt = 3)
      ∧ ((uploadChunkWithRetry (fun _ => true) 3 1000 1).success = true →
          (fun _ : Nat => true) (uploadChunkWithRetry (fun _ => true) 3 1000 1).lastAttempt
            = false)) := by
  constructor
  · rw [uploadChunkWithRetry]
    rw [uploadChunkWithRetry]
    rw [uploadChunkWithRetry]
    norm_num
  · exact client_retry_policy (fun _ => true) 3 1000 (by norm_num)

/-! ### C7: local-driver chunk file naming and lexicographic sort -/

lemma listVal_from (ds : List Nat) :
    ∀ a, ds.foldl (fun x d => 10 * x + d) a = a * 10 ^ ds.length + listVal ds := by
  induction ds with
  | nil => intro a; simp [listVal]
  | cons d ds ih =>
    intro a
    have h1 : (d :: ds).foldl (fun x e => 10 * x + e) a
        = ds.foldl (fun x e => 10 * x + e) (10 * a + d) := rfl
    have h2 : listVal (d :: ds) = ds.foldl (fun x e => 10 * x + e) d := by
      simp [listVal]
    rw [h1, ih (10 * a + d), h2, ih d, List.length_cons]
    ring

lemma listVal_cons (d : Nat) (ds : List Nat) :
    listVal (d :: ds) = d * 10 ^ ds.length + listVal ds := by
  have h2 : listVal (d :: ds) = ds.foldl (fun x e => 10 * x + e) d := by
    simp [listVal]
  rw [h2, ih_helper]
where ih_helper : ds.foldl (fun x e => 10 * x + e) d = d * 10 ^ ds.length + listVal ds :=
  listVal_from ds d

lemma listVal_lt (ds : List Nat) (h : ∀ d ∈ ds, d < 10) :
    listVal ds < 10 ^ ds.length := by
  induction ds with
  | nil => simp [listVal]
  | cons d ds ih =>
    rw [listVal_cons, List.length_cons]
    have hd : d < 10 := h d (List.mem_cons_self _ _)
    have hds := ih (fun e he => h e (List.mem_cons_of_mem _ he))
    have h1 : (d + 1) * 10 ^ ds.length = d * 10 ^ ds.length + 10 ^ ds.length := by ring
    have h2 : (d + 1) * 10 ^ ds.length ≤ 10 * 10 ^ ds.length :=
      Nat.mul_le_mul_right _ (by omega)
    have h3 : 10 ^ (ds.length + 1) = 10 * 10 ^ ds.length := by ring
    omega

lemma listVal_append_singleton (ds : List Nat) (d : Nat) :
    listVal (ds ++ [d]) = 10 * listVal ds + d := by
  simp [listVal, List.foldl_append]

lemma natDigitsGo_val : ∀ fuel n, listVal (natDigitsGo fuel n) = n := by
  intro fuel
  induction fuel with
  | zero => intro n; simp [natDigitsGo, listVal]
  | succ fuel ih =>
    intro n
    rw [natDigitsGo]
    split
    · simp [listVal]
    · rw [listVal_append_singleton, ih (n / 10)]
      omega

lemma natDigitsGo_digits_lt : ∀ fuel n, n < 10 ^ (fuel + 1) →
    ∀ d ∈ natDigitsGo fuel n, d < 10 := by
  intro fuel
  induction fuel with
  | zero =>
    intro n hn d hd
    simp only [natDigitsGo, List.mem_singleton] at hd
    subst hd
    simpa using hn
  | succ fuel ih =>
    intro n hn d hd
    rw [natDigitsGo] at hd
    split at hd
    · simp only [List.mem_singleton] at hd
      omega
    · rcases List.mem_append.mp hd with h | h
      · have hdiv : n / 10 < 10 ^ (fuel + 1) := by
          rw [Nat.div_lt_iff_lt_mul (by norm_num)]
          calc n < 10 ^ (fuel + 1 + 1) := hn
            _ = 10 ^ (fuel + 1) * 10 := by ring
        exact ih (n / 10) hdiv d h
      · simp only [List.mem_singleton] at h
        omega

lemma natDigitsGo_length_le : ∀ fuel n k, n < 10 ^ (k + 1) →
    (natDigitsGo fuel n).length ≤ k + 1 := by
  intro fuel
  induction fuel with
  | zero => intro n k _; simp [natDigitsGo]
  | succ fuel ih =>
    intro n k hn
    rw [natDigitsGo]
    split
    · simp
    · rcases k with - | k'
      · omega
      · have hdiv : n / 10 < 10 ^ (k' + 1) := by
          rw [Nat.div_lt_iff_lt_mul (by norm_num)]
          calc n < 10 ^ (k' + 1 + 1) := hn
            _ = 10 ^ (k' + 1) * 10 := by ring
        have := ih (n / 10) k' hdiv
        simp only [List.length_append, List.length_singleton]
        omega

lemma natDigits_val (n : Nat) : listVal (natDigits n) = n := natDigitsGo_val n n

lemma natDigits_digits_lt (n : Nat) : ∀ d ∈ natDigits n, d < 10 := by
  have hn : n < 10 ^ (n + 1) :=
    lt_of_lt_of_le (Nat.lt_pow_self (by norm_num) n)
      (Nat.pow_le_pow_right (by norm_num) (Nat.le_succ n))
  exact natDigitsGo_digits_lt n n hn

lemma natDigits_length_le (n k : Nat) (h : n < 10 ^ (k + 1)) :
    (natDigits n).length ≤ k + 1 :=
  natDigitsGo_length_le n n k h

lemma foldl_replicate_zero (k : Nat) :
    (List.replicate k 0).foldl (fun a d => 10 * a + d) 0 = 0 := by
  induction k with
  | zero => rfl
  | succ k ih => simpa [List.replicate_succ] using ih

lemma listVal_replicate_zero_append (k : Nat) (ds : List Nat) :
    listVal (List.replicate k 0 ++ ds) = listVal ds := by
  rw [listVal, List.foldl_append, foldl_replicate_zero, listVal]

lemma digitChar_toNat : ∀ d < 10, (digitChar d).toNat = 48 + d := by decide

lemma strLt_map_digitChar : ∀ ds es, (∀ d ∈ ds, d < 10) → (∀ e ∈ es, e < 10) →
    strLt (ds.map digitChar) (es.map digitChar) = natListLt ds es := by
  intro ds
  induction ds with
  | nil =>
    intro es _ _
    cases es with
    | nil => rfl
    | cons e es => rfl
  | cons d ds ih =>
    intro es hd he
    cases es with
    | nil => rfl
    | cons e es =>
      have hd0 : d < 10 := hd d (List.mem_cons_self _ _)
      have he0 : e < 10 := he e (List.mem_cons_self _ _)
      simp only [List.map, strLt, natListLt]
      rw [digitChar_toNat d hd0, digitChar_toNat e he0]
      by_cases h1 : d < e
      · rw [if_pos (by omega), if_pos h1]
      · rw [if_neg (by omega), if_neg h1]
        by_cases h2 : e < d
        · rw [if_pos (by omega), if_pos h2]
        · rw [if_neg (by omega), if_neg h2]
          exact ih es (fun x hx => hd x (List.mem_cons_of_mem _ hx))
            (fun x hx => he x (List.mem_cons_of_mem _ hx))

lemma strLt_append_left : ∀ p a b : List Char, strLt (p ++ a) (p ++ b) = strLt a b := by
  intro p
  induction p with
  | nil => intro a b; rfl
  | cons c p ih =>
    intro a b
    simp only [List.cons_append, strLt]
    rw [if_neg (lt_irrefl c.toNat), if_neg (lt_irrefl c.toNat)]
    exact ih a b

lemma strLt_asymm : ∀ a b : List Char, strLt a b = true → strLt b a = true → False := by
  intro a
  induction a with
  | nil =>
    intro b h1 h2
    cases b with
    | nil => simp [strLt] at h1
    | cons c bs => simp [strLt] at h2
  | cons x xs ih =>
    intro b h1 h2
    cases b with
    | nil => simp [strLt] at h1
    | cons y ys =>
      simp only [strLt] at h1 h2
      by_cases hxy : x.toNat < y.toNat
      · rw [if_neg (by omega), if_pos hxy] at h2
        exact absurd h2 (by simp)
      · rw [if_neg hxy] at h1
        by_cases hyx : y.toNat < x.toNat
        · rw [if_pos hyx] at h1
          exact absurd h1 (by simp)
        · rw [if_neg hyx] at h1
          rw [if_neg hyx, if_neg hxy] at h2
          exact ih ys h1 h2

lemma natListLt_iff_val : ∀ ds es, ds.length = es.length →
    (∀ d ∈ ds, d < 10) → (∀ e ∈ es, e < 10) →
    (natListLt ds es = true ↔ listVal ds < listVal es) := by
  intro ds
  induction ds with
  | nil =>
    intro es hlen _ _
    cases es with
    | nil => simp [natListLt, listVal]
    | cons e es => simp at hlen
  | cons d ds ih =>
    intro es hlen hd he
    cases es with
    | nil => simp at hlen
    | cons e es =>
      have hlen' : ds.length = es.length := by simpa using hlen
      have hd0 : d < 10 := hd d (List.mem_cons_self _ _)
      have he0 : e < 10 := he e (List.mem_cons_self _ _)
      have hvd := listVal_lt ds (fun x hx => hd x (List.mem_cons_of_mem _ hx))
      have hve := listVal_lt es (fun x hx => he x (List.mem_cons_of_mem _ hx))
      rw [listVal_cons, listVal_cons, hlen', natListLt]
      rw [hlen'] at hvd
      have hpos : 0 < 10 ^ es.length := pow_pos (by norm_num) _
      by_cases h1 : d < e
      · rw [if_pos h1]
        have ha : (d + 1) * 10 ^ es.length = d * 10 ^ es.length + 10 ^ es.length := by
          ring
        have hb : (d + 1) * 10 ^ es.length ≤ e * 10 ^ es.length :=
          Nat.mul_le_mul_right _ (by omega)
        constructor
        · intro
          omega
        · intro
          rfl
      · rw [if_neg h1]
        by_cases h2 : e < d
        · rw [if_pos h2]
          have ha : (e + 1) * 10 ^ es.length = e * 10 ^ es.length + 10 ^ es.length := by
            ring
          have hb : (e + 1) * 10 ^ es.length ≤ d * 10 ^ es.length :=
            Nat.mul_le_mul_right _ (by omega)
          constructor
          · intro h
            exact absurd h (by simp)
          · intro
            omega
        · rw [if_neg h2]
          have hde : d = e := by omega
          subst hde
          rw [ih es hlen' (fun x hx => hd x (List.mem_cons_of_mem _ hx))
            (fun x hx => he x (List.mem_cons_of_mem _ hx))]
          omega

lemma padded_digits (n : Nat) (hn : n < 1000000) :
    (∀ d ∈ List.replicate (6 - (natDigits n).length) 0 ++ natDigits n, d < 10)
    ∧ (List.replicate (6 - (natDigits n).length) 0 ++ natDigits n).length = 6
    ∧ listVal (List.replicate (6 - (natDigits n).length) 0 ++ natDigits n) = n := by
  have hlen : (natDigits n).length ≤ 6 := natDigits_length_le n 5 (by norm_num; omega)
  refine ⟨?_, ?_, ?_⟩
  · intro d hd
    rcases List.mem_append.mp hd with h | h
    · have := List.eq_of_mem_replicate h
      omega
    · exact natDigits_digits_lt n d h
  · simp only [List.length_append, List.length_replicate]
    omega
  · rw [listVal_replicate_zero_append, natDigits_val]

lemma padStart6_map_digitChar (ds : List Nat) :
    padStart6 (ds.map digitChar)
      = (List.replicate (6 - ds.length) 0 ++ ds).map digitChar := by
  rw [padStart6, List.map_append, List.map_replicate, List.length_map]
  have h0 : digitChar 0 = '0' := by decide
  rw [h0]

lemma chunkFileName_lt_iff (i j : Nat) (hi : i < 1000000) (hj : j < 1000000) :
    (StrLtP (chunkFileName i) (chunkFileName j) ↔ i < j) := by
  obtain ⟨hdi, hleni, hvali⟩ := padded_digits i hi
  obtain ⟨hdj, hlenj, hvalj⟩ := padded_digits j hj
  unfold StrLtP chunkFileName
  rw [strLt_append_left, padStart6_map_digitChar, padStart6_map_digitChar]
  rw [strLt_map_digitChar _ _ hdi hdj]
  rw [natListLt_iff_val _ _ (by omega) hdi hdj]
  rw [hvali, hvalj]

/-- C7, amended.  For chunk indices below `10^6` (i.e. `totalChunks ≤ 10^6`,
where the 6-digit zero padding is faithful), the `chunk_`-prefixed
zero-padded file names compare lexicographically exactly as their indices
compare numerically, so the lexicographic sort in `finalizeUpload`
produces the chunks in ascending index order.  At index `10^6` the
padding overflows and the order breaks (see the counterexample). -/
theorem local_driver_chunk_sort_order :
    (∀ i j : Nat, i < 1000000 → j < 1000000 →
      (StrLtP (chunkFileName i) (chunkFileName j) ↔ i < j))
    ∧ ∀ (l idxSorted : List Nat) (nameSorted : List (List Char)),
        (∀ i ∈ l, i < 1000000) → l.Nodup →
        idxSorted.Perm l → idxSorted.Sorted (· < ·) →
        nameSorted.Perm (l.map chunkFileName) → nameSorted.Sorted StrLtP →
        nameSorted = idxSorted.map chunkFileName := by
  refine ⟨fun i j hi hj => chunkFileName_lt_iff i j hi hj, ?_⟩
  intro l idxSorted nameSorted hb hnd hperm hsorted hperm2 hsorted2
  haveI : IsAntisymm (List Char) StrLtP :=
    ⟨fun a b h1 h2 => (strLt_asymm a b h1 h2).elim⟩
  apply List.eq_of_perm_of_sorted (r := StrLtP)
  · exact hperm2.trans (hperm.map chunkFileName).symm
  · exact hsorted2
  · rw [List.Sorted, List.pairwise_map]
    refine List.Pairwise.imp_of_mem ?_ hsorted
    intro a b ha hb' hab
    exact (chunkFileName_lt_iff a b (hb a (hperm.subset ha))
      (hb b (hperm.subset hb'))).mpr hab

/-- Counterexample to C7 as stated (for every `totalChunks ≥ 1`): at index
`10^6` the 6-digit padding overflows, and `chunk_1000000` sorts
lexicographically BEFORE `chunk_999999`, so with
`totalChunks = 1_000_001` finalize would concatenate out of index order. -/
theorem local_driver_chunk_sort_order_counterexample :
    (999999 : Nat) < 1000000
    ∧ StrLtP (chunkFileName 1000000) (chunkFileName 999999)
    ∧ ¬ StrLtP (chunkFileName 999999) (chunkFileName 1000000) := by
  refine ⟨by norm_num, by decide, by decide⟩

/-- Witness for C7 (amended) on indices `[2, 0, 1]`: the lexicographically
sorted file names are exactly the names of `[0, 1, 2]` in order. -/
theorem local_driver_chunk_sort_order_witness :
    ((∀ i ∈ [2, 0, 1], i < 1000000) ∧ [2, 0, 1].Nodup
      ∧ ([0, 1, 2] : List Nat).Perm [2, 0, 1] ∧ ([0, 1, 2] : List Nat).Sorted (· < ·)
      ∧ ([chunkFileName 0, chunkFileName 1, chunkFileName 2]).Perm
          ([2, 0, 1].map chunkFileName)
      ∧ ([chunkFileName 0, chunkFileName 1, chunkFileName 2]).Sorted StrLtP)
    ∧ [chunkFileName 0, chunkFileName 1, chunkFileName 2]
      = ([0, 1, 2] : List Nat).map chunkFileName := by
  refine ⟨⟨by decide, by decide, by decide, by decide, by decide, by decide⟩, ?_⟩
  exact local_driver_chunk_sort_order.2 [2, 0, 1] [0, 1, 2]
    [chunkFileName 0, chunkFileName 1, chunkFileName 2]
    (by decide) (by decide) (by decide) (by decide) (by decide) (by decide)

end Torrin
